import Mathlib

/-!
Shallow embedding of the route-scoring core of the SheSafe backend
(`src/backend/app.py`, `score_route`), over exact rationals.

The HTTP handler `score_route` receives `{"routes": [...]}`.  For each
route it builds a rectangular float array of shape (N, 2), predicts a
crime intensity at each point with the fitted model, computes the 85th
percentile of the prediction vector (numpy's default linear-interpolation
method), multiplies every prediction that is `>=` that threshold by 1.6,
and scores the route as the mean of the resulting vector.  Any route that
fails the array conversion or the shape check is scored with the
positive-infinity sentinel instead, and the batch continues.  An absent,
non-list or empty `routes` field is rejected with HTTP 400 before any
route is scored.
-/

namespace SheSafe

/-- A JSON scalar appearing inside a route point: either a numeric value
(modelled as an exact rational, standing for the float the code builds
with `np.array(route, dtype=float)`) or any non-numeric value, which
makes that conversion raise. -/
inductive Val where
  | num (q : ℚ)
  | other
  deriving DecidableEq

/-- A raw route as received in the request body: a list of points, each a
list of JSON scalars. -/
abbrev RawRoute := List (List Val)

/-- One row of the (N, 2) float array: succeeds exactly when the point is
a numeric pair, which is what `np.array(route, dtype=float)` followed by
the `arr.ndim != 2 or arr.shape[1] != 2` check accepts for that row. -/
def toPoint : List Val → Option (ℚ × ℚ)
  | [Val.num a, Val.num b] => some (a, b)
  | _ => none

/-- Convert every row; any ragged, wrong-arity or non-numeric row makes
the whole conversion fail, as the numpy conversion or shape check does. -/
def toPoints : RawRoute → Option (List (ℚ × ℚ))
  | [] => some []
  | p :: ps =>
    match toPoint p, toPoints ps with
    | some q, some qs => some (q :: qs)
    | _, _ => none

/-- `np.array(route, dtype=float)` plus the
`arr.ndim != 2 or arr.shape[1] != 2` guard: an empty route yields a
1-dimensional empty array and is rejected; otherwise every row must be a
numeric pair. -/
def validate (route : RawRoute) : Option (List (ℚ × ℚ)) :=
  if route.isEmpty then none else toPoints route

/-- The percentile rank used by the scorer (`np.percentile(preds, 85)`). -/
def PCT : ℚ := 85

/-- The amplification factor applied to top-tail predictions
(`preds * 1.6`); 1.6 is exactly 8/5. -/
def FACTOR : ℚ := 8 / 5

/-- `np.percentile(l, q)` with numpy's default linear-interpolation
method: sort ascending, take the virtual index `h = (n - 1) * q / 100`,
and interpolate linearly between the values at `⌊h⌋` and `⌊h⌋ + 1`
(clipped to the last element). -/
def percentile (q : ℚ) (l : List ℚ) : ℚ :=
  let s := l.insertionSort (· ≤ ·)
  let h : ℚ := ((l.length : ℚ) - 1) * q / 100
  let i : ℕ := (⌊h⌋).toNat
  let lo := s.getD i 0
  let hi := s.getD (i + 1) lo
  lo + (h - (i : ℚ)) * (hi - lo)

/-- `np.where(preds >= p85, preds * 1.6, preds)` with
`p85 = np.percentile(preds, 85)`. -/
def penalize (preds : List ℚ) : List ℚ :=
  let p85 := percentile PCT preds
  preds.map (fun x => if p85 ≤ x then x * FACTOR else x)

/-- `np.mean` of a vector. -/
def mean (l : List ℚ) : ℚ :=
  l.sum / (l.length : ℚ)

/-- A route's score: a finite value, or the `float("inf")` sentinel
assigned when scoring that route raised. -/
inductive Score where
  | val (q : ℚ)
  | inf
  deriving DecidableEq

/-- The body of the per-route loop in `score_route`: validate, predict
at every point, penalize the top tail, average; on any failure score the
route with the infinity sentinel instead of aborting. -/
def scoreOne (model : ℚ × ℚ → ℚ) (route : RawRoute) : Score :=
  match validate route with
  | none => Score.inf
  | some pts => Score.val (mean (penalize (pts.map model)))

/-- The whole scoring loop: one score per route, in order. -/
def scoreBatch (model : ℚ × ℚ → ℚ) (routes : List RawRoute) : List Score :=
  routes.map (scoreOne model)

/-- The `routes` field of the parsed request body: absent, present but
not a list, or an actual list of routes. -/
inductive RoutesField where
  | missing
  | notList
  | list (routes : List RawRoute)

/-- A response of the `/score_route` handler: an error status code, or
the score list. -/
inductive Response where
  | error (code : ℕ)
  | ok (scores : List Score)
  deriving DecidableEq

/-- The `score_route` handler: `data = request.get_json(silent=True)`
(`none` models unparsable or falsy JSON, answered 400), then
`if not routes or not isinstance(routes, list): 400` — note that an empty
list is falsy in Python, so an empty batch is also answered 400 — and
finally the scoring loop. -/
def score_route (model : ℚ × ℚ → ℚ) (data : Option RoutesField) : Response :=
  match data with
  | none => Response.error 400
  | some RoutesField.missing => Response.error 400
  | some RoutesField.notList => Response.error 400
  | some (RoutesField.list routes) =>
    if routes.isEmpty then Response.error 400
    else Response.ok (scoreBatch model routes)

/-! ### Helper lemmas -/

theorem toPoints_length : ∀ (r : RawRoute) (pts : List (ℚ × ℚ)),
    toPoints r = some pts → pts.length = r.length := by
  intro r
  induction r with
  | nil =>
    intro pts h
    simp only [toPoints, Option.some.injEq] at h
    simp [← h]
  | cons p ps ih =>
    intro pts h
    simp only [toPoints] at h
    cases hq : toPoint p <;> rw [hq] at h
    · exact absurd h (by simp)
    · cases hqs : toPoints ps <;> rw [hqs] at h
      · exact absurd h (by simp)
      · simp only [Option.some.injEq] at h
        simp [← h, ih _ hqs]

theorem validate_length (r : RawRoute) (pts : List (ℚ × ℚ))
    (h : validate r = some pts) : pts.length = r.length := by
  by_cases he : r.isEmpty
  · simp [validate, he] at h
  · simp only [validate, he, if_false] at h
    exact toPoints_length r pts h

theorem validate_pos (r : RawRoute) (pts : List (ℚ × ℚ))
    (h : validate r = some pts) : 0 < pts.length := by
  by_cases he : r.isEmpty
  · simp [validate, he] at h
  · rw [validate_length r pts h]
    cases r with
    | nil => simp at he
    | cons p ps => simp

theorem percentile_perm (q : ℚ) {l l' : List ℚ} (hp : l.Perm l') :
    percentile q l = percentile q l' := by
  have hs : l.insertionSort (· ≤ ·) = l'.insertionSort (· ≤ ·) :=
    List.eq_of_perm_of_sorted
      ((List.perm_insertionSort _ l).trans (hp.trans (List.perm_insertionSort _ l').symm))
      (List.sorted_insertionSort _ l) (List.sorted_insertionSort _ l')
  simp only [percentile, hs, hp.length_eq]

theorem mean_penalize_perm {l l' : List ℚ} (hp : l.Perm l') :
    mean (penalize l) = mean (penalize l') := by
  have ht : percentile PCT l = percentile PCT l' := percentile_perm PCT hp
  have hm : (l.map fun x => if percentile PCT l' ≤ x then x * FACTOR else x).Perm
      (l'.map fun x => if percentile PCT l' ≤ x then x * FACTOR else x) := hp.map _
  simp only [penalize, mean, ht, hm.sum_eq, hm.length_eq]

theorem sorted_index_bound (l : List ℚ) (hne : l ≠ []) :
    (⌊((l.length : ℚ) - 1) * PCT / 100⌋).toNat < l.length := by
  have hn : 1 ≤ l.length := List.length_pos.mpr hne
  have hn1 : (0 : ℚ) ≤ (l.length : ℚ) - 1 := by
    have : (1 : ℚ) ≤ (l.length : ℚ) := by exact_mod_cast hn
    linarith
  have hq : ((l.length : ℚ) - 1) * PCT / 100 ≤ (l.length : ℚ) - 1 := by
    rw [div_le_iff₀ (by norm_num : (0:ℚ) < 100)]
    rw [PCT]
    nlinarith
  have hfloor : ⌊((l.length : ℚ) - 1) * PCT / 100⌋ ≤ (l.length : ℤ) - 1 := by
    have h1 : ⌊((l.length : ℚ) - 1) * PCT / 100⌋ ≤ ⌊(l.length : ℚ) - 1⌋ :=
      Int.floor_le_floor hq
    have h2 : ⌊(l.length : ℚ) - 1⌋ = (l.length : ℤ) - 1 := by
      rw [show ((l.length : ℚ) - 1) = (((l.length : ℤ) - 1 : ℤ) : ℚ) by push_cast; ring]
      exact Int.floor_intCast _
    omega
  have := Int.toNat_le_toNat hfloor
  have h3 : ((l.length : ℤ) - 1).toNat = l.length - 1 := by omega
  omega

theorem getD_of_all_eq {l : List ℚ} {V : ℚ} (hall : ∀ x ∈ l, x = V)
    {i : ℕ} (hi : i < l.length) (d : ℚ) : l.getD i d = V := by
  rw [List.getD_eq_getElem l d hi]
  exact hall _ (List.getElem_mem hi)

theorem percentile_const {l : List ℚ} {V : ℚ} (hne : l ≠ [])
    (hall : ∀ x ∈ l, x = V) : percentile PCT l = V := by
  have hslen : (l.insertionSort (· ≤ ·)).length = l.length :=
    List.length_insertionSort _ l
  have hsall : ∀ x ∈ l.insertionSort (· ≤ ·), x = V := fun x hx =>
    hall x ((List.perm_insertionSort _ l).mem_iff.mp hx)
  have hib := sorted_index_bound l hne
  have hlo : (l.insertionSort (· ≤ ·)).getD
      (⌊((l.length : ℚ) - 1) * PCT / 100⌋).toNat 0 = V :=
    getD_of_all_eq hsall (by omega) 0
  have hhi : ∀ d : ℚ, d = V → (l.insertionSort (· ≤ ·)).getD
      ((⌊((l.length : ℚ) - 1) * PCT / 100⌋).toNat + 1) d = V := by
    intro d hd
    by_cases hb : (⌊((l.length : ℚ) - 1) * PCT / 100⌋).toNat + 1 <
        (l.insertionSort (· ≤ ·)).length
    · exact getD_of_all_eq hsall hb d
    · rw [List.getD_eq_default _ _ (by omega)]
      exact hd
  simp only [percentile]
  rw [hlo, hhi V rfl]
  ring

theorem sum_bounds (t : ℚ) : ∀ l : List ℚ, (∀ x ∈ l, 0 ≤ x) →
    l.sum ≤ (l.map (fun x => if t ≤ x then x * FACTOR else x)).sum ∧
    (l.map (fun x => if t ≤ x then x * FACTOR else x)).sum ≤ FACTOR * l.sum := by
  intro l
  induction l with
  | nil => intro _; simp
  | cons a l ih =>
    intro hpos
    have ha : (0 : ℚ) ≤ a := hpos a (by simp)
    have hl := ih (fun x hx => hpos x (by simp [hx]))
    have hpoint : a ≤ (if t ≤ a then a * FACTOR else a) ∧
        (if t ≤ a then a * FACTOR else a) ≤ FACTOR * a := by
      rw [FACTOR]
      split <;> constructor <;> nlinarith
    simp only [List.map_cons, List.sum_cons]
    constructor
    · linarith [hpoint.1, hl.1]
    · rw [mul_add]
      linarith [hpoint.2, hl.2]

theorem eraseIdx_map {α β : Type} (f : α → β) :
    ∀ (l : List α) (i : ℕ), (l.map f).eraseIdx i = (l.eraseIdx i).map f := by
  intro l
  induction l with
  | nil => intro i; simp
  | cons a l ih =>
    intro i
    cases i with
    | zero => simp
    | succ j => simp [List.eraseIdx, ih j]

theorem percentile_singleton (q v : ℚ) : percentile q [v] = v := by
  simp [percentile]

theorem sum_map_const {α : Type} (l : List α) (c : ℚ) :
    (l.map (fun _ => c)).sum = (l.length : ℚ) * c := by
  induction l with
  | nil => simp
  | cons a l ih =>
    simp only [List.map_cons, List.sum_cons, List.length_cons, ih]
    push_cast
    ring

/-! ### Claims -/

/-- C1: for every valid route with prediction vector `P = pts.map model`,
the route's score is the arithmetic mean of the vector obtained from `P`
by multiplying each element that is `≥` the 85th percentile of `P`
(linear interpolation between closest ranks) by 1.6 and leaving every
other element unchanged. -/
theorem C1_score_is_penalized_mean (model : ℚ × ℚ → ℚ) (route : RawRoute)
    (pts : List (ℚ × ℚ)) (h : validate route = some pts) :
    scoreOne model route =
      Score.val (mean ((pts.map model).map
        (fun x => if percentile PCT (pts.map model) ≤ x then x * FACTOR else x))) := by
  simp [scoreOne, h, penalize]

theorem C1_witness :
    validate [[Val.num 3, Val.num 4]] = some [((3:ℚ), (4:ℚ))] ∧
    scoreOne (fun p => p.1) [[Val.num 3, Val.num 4]] =
      Score.val (mean (([((3:ℚ), (4:ℚ))].map (fun p => p.1)).map
        (fun x => if percentile PCT ([((3:ℚ), (4:ℚ))].map (fun p => p.1)) ≤ x
          then x * FACTOR else x))) :=
  ⟨rfl, C1_score_is_penalized_mean (fun p => p.1) [[Val.num 3, Val.num 4]]
    [((3:ℚ), (4:ℚ))] rfl⟩

/-- C2: for every batch of N routes (any N, malformed routes included),
the scoring loop returns exactly N scores and the i-th score is the
score of the i-th route. -/
theorem C2_batch_length_order (model : ℚ × ℚ → ℚ) (routes : List RawRoute) :
    (scoreBatch model routes).length = routes.length ∧
    ∀ i : ℕ, (scoreBatch model routes)[i]? = (routes[i]?).map (scoreOne model) := by
  refine ⟨by simp [scoreBatch], fun i => ?_⟩
  simp [scoreBatch]

/-- C3: a malformed route (one the shape validation rejects) is scored
with the infinity sentinel, and deleting it from the batch deletes
exactly its entry from the output, leaving every sibling score
unchanged; the loop is total, so no exception escapes. -/
theorem C3_malformed_sentinel_isolated (model : ℚ × ℚ → ℚ)
    (routes : List RawRoute) (j : ℕ) (hj : j < routes.length)
    (hbad : validate (routes.getD j []) = none) :
    (scoreBatch model routes).getD j (Score.val 0) = Score.inf ∧
    scoreBatch model (routes.eraseIdx j) = (scoreBatch model routes).eraseIdx j := by
  constructor
  · have hg : routes.getD j [] = routes.get ⟨j, hj⟩ := by
      rw [List.getD_eq_getElem routes [] hj]
      simp
    have hbad2 : validate (routes.get ⟨j, hj⟩) = none := by
      rw [← hg]
      exact hbad
    have h1 : (scoreBatch model routes).getD j (Score.val 0) =
        scoreOne model (routes.get ⟨j, hj⟩) := by
      rw [List.getD_eq_getElem _ _ (by simpa [scoreBatch] using hj)]
      simp [scoreBatch]
    rw [h1]
    have hbad3 := hbad2
    simp only [List.get_eq_getElem] at hbad3
    simp [scoreOne, hbad3]
  · exact (eraseIdx_map (scoreOne model) routes j).symm

theorem C3_witness :
    (1 < ([[[Val.num 1, Val.num 0], [Val.num 2, Val.num 0]], []] :
        List RawRoute).length) ∧
    validate (([[[Val.num 1, Val.num 0], [Val.num 2, Val.num 0]], []] :
        List RawRoute).getD 1 []) = none ∧
    ((scoreBatch (fun p => p.1)
        [[[Val.num 1, Val.num 0], [Val.num 2, Val.num 0]], []]).getD 1 (Score.val 0) =
      Score.inf ∧
    scoreBatch (fun p => p.1)
        ([[[Val.num 1, Val.num 0], [Val.num 2, Val.num 0]], []].eraseIdx 1) =
      (scoreBatch (fun p => p.1)
        [[[Val.num 1, Val.num 0], [Val.num 2, Val.num 0]], []]).eraseIdx 1) :=
  ⟨by norm_num, rfl,
    C3_malformed_sentinel_isolated (fun p => p.1)
      [[[Val.num 1, Val.num 0], [Val.num 2, Val.num 0]], []] 1 (by norm_num) rfl⟩

/-- C4: a one-point route whose single predicted intensity is `v` scores
exactly `v * 1.6` — the 85th percentile of a one-element vector is the
element itself, so the single point is always amplified. -/
theorem C4_single_point_amplified (model : ℚ × ℚ → ℚ) (a b : ℚ) :
    scoreOne model [[Val.num a, Val.num b]] = Score.val (model (a, b) * FACTOR) := by
  have hp : percentile PCT [model (a, b)] = model (a, b) :=
    percentile_singleton PCT (model (a, b))
  simp [scoreOne, validate, toPoints, toPoint, penalize, mean, hp]

/-- C5 counterexample: two points with equal predicted intensity 1 score
8/5, not 1, refuting the claim that a constant prediction vector makes
the penalty step a no-op. -/
theorem C5_counterexample :
    scoreOne (fun _ => (1:ℚ)) [[Val.num 0, Val.num 0], [Val.num 1, Val.num 1]] =
      Score.val (8 / 5) ∧
    scoreOne (fun _ => (1:ℚ)) [[Val.num 0, Val.num 0], [Val.num 1, Val.num 1]] ≠
      Score.val 1 := by
  have h : scoreOne (fun _ => (1:ℚ))
      [[Val.num 0, Val.num 0], [Val.num 1, Val.num 1]] = Score.val (8 / 5) := by
    simp [scoreOne, validate, toPoints, toPoint, mean, penalize, percentile, PCT,
      FACTOR, List.insertionSort, List.orderedInsert]
    norm_num
  refine ⟨h, ?_⟩
  rw [h]
  intro hc
  injection hc with h2
  norm_num at h2

/-- C5 amended: for a route of length k whose predicted values are all
equal to V, every point sits at the 85th-percentile threshold, so the
penalty applies uniformly and the score is `V * 1.6` (a no-op only when
`V = 0`), not `V`. -/
theorem C5_constant_predictions_amplified (model : ℚ × ℚ → ℚ) (route : RawRoute)
    (pts : List (ℚ × ℚ)) (V : ℚ) (h : validate route = some pts)
    (hconst : ∀ p ∈ pts, model p = V) :
    scoreOne model route = Score.val (V * FACTOR) := by
  have hpts : 0 < pts.length := validate_pos route pts h
  have hmne : pts.map model ≠ [] := by
    intro hc
    rw [← List.length_eq_zero, List.length_map] at hc
    omega
  have hall : ∀ x ∈ pts.map model, x = V := by
    intro x hx
    obtain ⟨p, hp, rfl⟩ := List.mem_map.mp hx
    exact hconst p hp
  have hpct : percentile PCT (pts.map model) = V := percentile_const hmne hall
  have hmap : (pts.map model).map
        (fun x => if percentile PCT (pts.map model) ≤ x then x * FACTOR else x) =
      (pts.map model).map (fun _ => V * FACTOR) := by
    apply List.map_congr_left
    intro x hx
    rw [hall x hx, hpct]
    simp
  have hn : ((pts.map model).length : ℚ) ≠ 0 := by
    rw [List.length_map]
    exact_mod_cast Nat.pos_iff_ne_zero.mp hpts
  rw [List.length_map] at hn
  simp only [scoreOne, h, penalize, mean, hmap, sum_map_const, List.length_map]
  congr 1
  field_simp

theorem C5_witness :
    validate [[Val.num 0, Val.num 0], [Val.num 3, Val.num 3]] =
      some [((0:ℚ), (0:ℚ)), ((3:ℚ), (3:ℚ))] ∧
    (∀ p ∈ [((0:ℚ), (0:ℚ)), ((3:ℚ), (3:ℚ))], (fun _ => (2:ℚ)) p = 2) ∧
    scoreOne (fun _ => (2:ℚ)) [[Val.num 0, Val.num 0], [Val.num 3, Val.num 3]] =
      Score.val (2 * FACTOR) :=
  ⟨rfl, fun _ _ => rfl,
    C5_constant_predictions_amplified (fun _ => (2:ℚ))
      [[Val.num 0, Val.num 0], [Val.num 3, Val.num 3]]
      [((0:ℚ), (0:ℚ)), ((3:ℚ), (3:ℚ))] 2 rfl (fun _ _ => rfl)⟩

/-- C6: a 5-point route whose prediction vector is `[1, 1, 1, 1, 10]`
scores exactly 4: only the 10 reaches the 85th-percentile threshold, so
the penalized vector is `[1, 1, 1, 1, 16]` with mean 4. -/
theorem C6_concrete_scenario :
    scoreOne (fun p => p.1)
      [[Val.num 1, Val.num 0], [Val.num 1, Val.num 0], [Val.num 1, Val.num 0],
        [Val.num 1, Val.num 0], [Val.num 10, Val.num 0]] = Score.val 4 := by
  simp [scoreOne, validate, toPoints, toPoint, mean, penalize, percentile, PCT,
    FACTOR, List.insertionSort, List.orderedInsert]
  norm_num
  simp
  norm_num

/-- C7 counterexample: the 85th percentile of `[1, 1, 1, 1, 10]` under
the scorer's linear-interpolation rule is 23/5 = 4.6 (virtual index
`(5 - 1) * 85 / 100 = 3.4`, so `1 + 0.4 * (10 - 1)`), not 7. -/
theorem C7_counterexample :
    percentile PCT [1, 1, 1, 1, 10] = 23 / 5 ∧ (23 / 5 : ℚ) ≠ 7 := by
  constructor
  · simp [percentile, PCT, List.insertionSort, List.orderedInsert]
    norm_num
    simp
    norm_num
  · norm_num

/-- C7 amended: the 85th percentile of the prediction vector
`[1, 1, 1, 1, 10]`, computed by linear interpolation between closest
ranks as the scoring step does, equals 4.6. -/
theorem C7_percentile_of_scenario :
    percentile PCT [1, 1, 1, 1, 10] = 23 / 5 := by
  simp [percentile, PCT, List.insertionSort, List.orderedInsert]
  norm_num
  simp
  norm_num

/-- C8: permuting a valid route's coordinates (so that, the model being
applied pointwise, the prediction vector is permuted accordingly) does
not change the route's score. -/
theorem C8_permutation_invariant (model : ℚ × ℚ → ℚ) (r1 r2 : RawRoute)
    (pts1 pts2 : List (ℚ × ℚ)) (h1 : validate r1 = some pts1)
    (h2 : validate r2 = some pts2) (hperm : pts1.Perm pts2) :
    scoreOne model r1 = scoreOne model r2 := by
  simp only [scoreOne, h1, h2]
  exact congrArg Score.val (mean_penalize_perm (hperm.map model))

theorem C8_witness :
    validate [[Val.num 1, Val.num 0], [Val.num 2, Val.num 0]] =
      some [((1:ℚ), (0:ℚ)), ((2:ℚ), (0:ℚ))] ∧
    validate [[Val.num 2, Val.num 0], [Val.num 1, Val.num 0]] =
      some [((2:ℚ), (0:ℚ)), ((1:ℚ), (0:ℚ))] ∧
    ([((1:ℚ), (0:ℚ)), ((2:ℚ), (0:ℚ))].Perm [((2:ℚ), (0:ℚ)), ((1:ℚ), (0:ℚ))]) ∧
    scoreOne (fun p => p.1) [[Val.num 1, Val.num 0], [Val.num 2, Val.num 0]] =
      scoreOne (fun p => p.1) [[Val.num 2, Val.num 0], [Val.num 1, Val.num 0]] :=
  ⟨rfl, rfl, List.Perm.swap _ _ _,
    C8_permutation_invariant (fun p => p.1)
      [[Val.num 1, Val.num 0], [Val.num 2, Val.num 0]]
      [[Val.num 2, Val.num 0], [Val.num 1, Val.num 0]]
      [((1:ℚ), (0:ℚ)), ((2:ℚ), (0:ℚ))] [((2:ℚ), (0:ℚ)), ((1:ℚ), (0:ℚ))]
      rfl rfl (List.Perm.swap _ _ _)⟩

/-- C9: a request whose `routes` field is the empty list is answered
with the batch-level 400 client error (empty list is falsy in Python),
never with a score list, so the per-route scorer is not reached for a
batch of size 0. -/
theorem C9_empty_batch_rejected (model : ℚ × ℚ → ℚ) :
    score_route model (some (RoutesField.list [])) = Response.error 400 ∧
    ∀ scores : List Score,
      score_route model (some (RoutesField.list [])) ≠ Response.ok scores := by
  refine ⟨rfl, fun scores hc => ?_⟩
  simp [score_route] at hc

/-- C10: for a valid route whose prediction vector is non-negative, the
score is the mean of the penalized vector and lies between the plain
mean and 1.6 times the plain mean; amplification never lowers the score
below the unpenalized mean. -/
theorem C10_score_bounds (model : ℚ × ℚ → ℚ) (route : RawRoute)
    (pts : List (ℚ × ℚ)) (h : validate route = some pts)
    (hpos : ∀ p ∈ pts, 0 ≤ model p) :
    scoreOne model route = Score.val (mean (penalize (pts.map model))) ∧
    mean (pts.map model) ≤ mean (penalize (pts.map model)) ∧
    mean (penalize (pts.map model)) ≤ FACTOR * mean (pts.map model) := by
  have hpos2 : ∀ x ∈ pts.map model, 0 ≤ x := by
    intro x hx
    obtain ⟨p, hp, rfl⟩ := List.mem_map.mp hx
    exact hpos p hp
  have hb := sum_bounds (percentile PCT (pts.map model)) (pts.map model) hpos2
  have hnpos : 0 < ((pts.map model).length : ℚ) := by
    have := validate_pos route pts h
    rw [List.length_map]
    exact_mod_cast this
  have e2 : mean (penalize (pts.map model)) =
      ((pts.map model).map
        (fun x => if percentile PCT (pts.map model) ≤ x then x * FACTOR else x)).sum /
      ((pts.map model).length : ℚ) := by
    simp [mean, penalize]
  refine ⟨by simp [scoreOne, h], ?_, ?_⟩
  · rw [e2, mean]
    gcongr
    exact hb.1
  · rw [e2, mean, ← mul_div_assoc]
    gcongr
    exact hb.2

theorem C10_witness :
    validate [[Val.num 1, Val.num 0], [Val.num 3, Val.num 0]] =
      some [((1:ℚ), (0:ℚ)), ((3:ℚ), (0:ℚ))] ∧
    (∀ p ∈ [((1:ℚ), (0:ℚ)), ((3:ℚ), (0:ℚ))], 0 ≤ (fun q => q.1) p) ∧
    (scoreOne (fun q => q.1) [[Val.num 1, Val.num 0], [Val.num 3, Val.num 0]] =
      Score.val (mean (penalize ([((1:ℚ), (0:ℚ)), ((3:ℚ), (0:ℚ))].map (fun q => q.1)))) ∧
    mean ([((1:ℚ), (0:ℚ)), ((3:ℚ), (0:ℚ))].map (fun q => q.1)) ≤
      mean (penalize ([((1:ℚ), (0:ℚ)), ((3:ℚ), (0:ℚ))].map (fun q => q.1))) ∧
    mean (penalize ([((1:ℚ), (0:ℚ)), ((3:ℚ), (0:ℚ))].map (fun q => q.1))) ≤
      FACTOR * mean ([((1:ℚ), (0:ℚ)), ((3:ℚ), (0:ℚ))].map (fun q => q.1))) :=
  ⟨rfl, by intro p hp; fin_cases hp <;> norm_num,
    C10_score_bounds (fun q => q.1) [[Val.num 1, Val.num 0], [Val.num 3, Val.num 0]]
      [((1:ℚ), (0:ℚ)), ((3:ℚ), (0:ℚ))] rfl
      (by intro p hp; fin_cases hp <;> norm_num)⟩

end SheSafe
